import Mathlib

/-!
Verification development for the SciDB system-catalog concurrency layer
(`src/system/catalog/SystemCatalog.cpp`): the array-version lock manager,
the version catalog and the boundary-maintenance operation, shallowly
embedded as executable Lean functions over explicit lock/version tables.
-/

namespace SciDBCatalog

/-- Decidable equality on `Except`, so outcomes of the embedded operations can
be computed on concrete inputs. -/
instance {ε α : Type} [DecidableEq ε] [DecidableEq α] :
    DecidableEq (Except ε α) := fun a b =>
  match a, b with
  | .ok x, .ok y => decidable_of_iff (x = y) (by simp)
  | .error e, .error f => decidable_of_iff (e = f) (by simp)
  | .ok _, .error _ => isFalse (by simp)
  | .error _, .ok _ => isFalse (by simp)

/-- Modelled from the spec: the lock-mode enumeration of `SystemCatalog::LockDesc`
(declared in `SystemCatalog.h`, which is not part of the sources; the spec gives
lockMode ∈ {RD, WR, CRT, XCL, RM, RNF}).  `INVALID_MODE` is the zero value.
Only the relative numeric order matters for the SQL comparisons
(`lock_mode > $9`): `RD < WR < CRT` and `CRT` below each of `XCL`, `RM`, `RNF`,
which is forced by the SQL in `getLockInsertSql` binding `$9 = RD` for the
WR/CRT predicate and `$9 = CRT` for the RD predicate. -/
inductive LockMode
  | INVALID_MODE
  | RD
  | WR
  | CRT
  | XCL
  | RM
  | RNF
deriving DecidableEq

/-- Numeric value of a lock mode as stored in the `lock_mode` integer column. -/
def LockMode.num : LockMode → Nat
  | .INVALID_MODE => 0
  | .RD => 1
  | .WR => 2
  | .CRT => 3
  | .XCL => 4
  | .RM => 5
  | .RNF => 6

/-- Modelled from the spec: the instance-role enumeration of
`SystemCatalog::LockDesc` (header not in the sources).  `COORD = 1` is forced
by the worker-side SQL in `getLockInsertSql`, which hard-codes
`AVL.instance_role=1` for the coordinator's rows. -/
inductive InstanceRole
  | INVALID_ROLE
  | COORD
  | WORKER
deriving DecidableEq

/-- A row of the `array_version_lock` table, with the eight columns named in
the INSERT statements of `SystemCatalog::getLockInsertSql`. -/
structure LockRow where
  array_name : String
  array_id : Nat
  query_id : Nat
  instance_id : Nat
  array_version_id : Nat
  array_version : Nat
  instance_role : InstanceRole
  lock_mode : LockMode
deriving DecidableEq

/-- The lock table: the shared `array_version_lock` relation. -/
abbrev LockTable := List LockRow

/-- `SystemCatalog::LockDesc`: the in-memory lock descriptor, including the
local-only `_isLocked` flag (not persisted). -/
structure LockDesc where
  arrayName : String
  arrayId : Nat
  queryId : Nat
  instanceId : Nat
  arrayVersionId : Nat
  arrayVersion : Nat
  instanceRole : InstanceRole
  lockMode : LockMode
  isLocked : Bool
deriving DecidableEq

/-- Failure outcomes of the lock-manager code paths in `_lockArray`:
`invalidRequest` is the `SCIDB_LE_INVALID_FUNCTION_ARGUMENT` exception of
`getLockInsertSql`; `uniqueViolation` is `pqxx::unique_violation`;
`assertFailed` is `ASSERT_EXCEPTION`; `lockBusy` is `LockBusyException`;
`fatalError` is the `SCIDB_LE_UNKNOWN_ERROR` system exception. -/
inductive LockErr
  | invalidRequest
  | uniqueViolation
  | assertFailed
  | lockBusy
  | fatalError
deriving DecidableEq

/-- The five distinct INSERT statements `getLockInsertSql` can return. -/
inductive LockSqlKind
  | coordRD
  | coordWrCrt
  | workerWr
  | coordXclRmRnf
  | workerXcl
deriving DecidableEq

/-- `SystemCatalog::getLockInsertSql`: selects the INSERT statement for a
(mode, role) pair, or raises for an invalid combination.  Mirrors the branch
structure at lines 3154-3224: the leading `ASSERT_EXCEPTION` on the role, the
RD / WR-CRT / RM-RNF-XCL mode groups, and the final `isInvalidRequest` throw. -/
def getLockInsertSql (mode : LockMode) (role : InstanceRole) :
    Except LockErr LockSqlKind :=
  if ¬(role = InstanceRole.COORD ∨ role = InstanceRole.WORKER) then
    .error .assertFailed
  else if mode = LockMode.RD then
    if role = InstanceRole.COORD then .ok .coordRD
    else .error .invalidRequest
  else if mode = LockMode.WR ∨ mode = LockMode.CRT then
    if role = InstanceRole.COORD then .ok .coordWrCrt
    else if mode = LockMode.CRT then .error .invalidRequest
    else .ok .workerWr
  else if mode = LockMode.RM ∨ mode = LockMode.RNF ∨ mode = LockMode.XCL then
    if role = InstanceRole.COORD then .ok .coordXclRmRnf
    else if role = InstanceRole.WORKER ∧ mode = LockMode.XCL then .ok .workerXcl
    else .error .invalidRequest
  else .error .invalidRequest

/-- The lock row the coordinator-side INSERT statements materialize from a
descriptor: columns `$1..$8` are the descriptor's own fields. -/
def coordRow (ld : LockDesc) : LockRow :=
  { array_name := ld.arrayName
    array_id := ld.arrayId
    query_id := ld.queryId
    instance_id := ld.instanceId
    array_version_id := ld.arrayVersionId
    array_version := ld.arrayVersion
    instance_role := ld.instanceRole
    lock_mode := ld.lockMode }

/-- Natural key of the lock table: `(array_name, query_id, instance_id)`. -/
def lockKey (r : LockRow) : String × Nat × Nat :=
  (r.array_name, r.query_id, r.instance_id)

/-- WHERE-NOT-EXISTS condition of the coordinator RD insert: a row for this
array name with `lock_mode > $9` and `instance_role = $10`, where `_lockArray`
binds `$9 = (int)LockDesc::CRT` and `$10 = (int)LockDesc::COORD`
(lines 3276-3277). -/
abbrev conflictsRD (t : LockTable) (name : String) : Prop :=
  ∃ r ∈ t, r.array_name = name ∧
    LockMode.num LockMode.CRT < LockMode.num r.lock_mode ∧
    r.instance_role = InstanceRole.COORD

/-- WHERE-NOT-EXISTS condition of the coordinator WR/CRT insert: a row for
this array name from a different query with `lock_mode > $9`, where
`_lockArray` binds `$9 = (int)LockDesc::RD` (line 3306). -/
abbrev conflictsWrCrt (t : LockTable) (name : String) (qid : Nat) : Prop :=
  ∃ r ∈ t, r.array_name = name ∧ r.query_id ≠ qid ∧
    LockMode.num LockMode.RD < LockMode.num r.lock_mode

/-- WHERE-NOT-EXISTS condition of the coordinator XCL/RM/RNF insert: any row
for this array name from a different query. -/
abbrev conflictsXclRmRnf (t : LockTable) (name : String) (qid : Nat) : Prop :=
  ∃ r ∈ t, r.array_name = name ∧ r.query_id ≠ qid

/-- Insert a batch of rows, enforcing the table's unique natural key;
a key collision raises `pqxx::unique_violation` and aborts the transaction.
On success the affected-row count is the number of inserted rows. -/
def tryInsert (t : LockTable) (rows : List LockRow) :
    Except LockErr (LockTable × Nat) :=
  if (rows.map lockKey).Nodup ∧ ∀ nr ∈ rows, ∀ r ∈ t, lockKey r ≠ lockKey nr then
    .ok (t ++ rows, rows.length)
  else .error .uniqueViolation

/-- Source rows of the worker WR insert-select: coordinator rows
(`AVL.instance_role=1`) of the same array name and query with lock mode
`$5 = WR` or `$6 = CRT` (lines 3186-3190, bindings at 3320-3326). -/
def workerWrSelect (t : LockTable) (name : String) (qid : Nat) : List LockRow :=
  t.filter fun r => decide (r.array_name = name ∧ r.query_id = qid ∧
    r.instance_role = InstanceRole.COORD ∧
    (r.lock_mode = LockMode.WR ∨ r.lock_mode = LockMode.CRT))

/-- Source rows of the worker XCL insert-select: coordinator XCL rows of the
same array name and query, guarded by NOT EXISTS of a row already keyed
`(array_name, query_id, instance_id=$3)` (lines 3204-3209). -/
def workerXclSelect (t : LockTable) (name : String) (qid iid : Nat) :
    List LockRow :=
  if ∃ r2 ∈ t, r2.array_name = name ∧ r2.query_id = qid ∧ r2.instance_id = iid
  then []
  else t.filter fun r => decide (r.array_name = name ∧ r.query_id = qid ∧
    r.instance_role = InstanceRole.COORD ∧ r.lock_mode = LockMode.XCL)

/-- The row a worker's insert-select builds from a coordinator row: all columns
copied except `instance_id := $3` (the worker's own id) and
`instance_role := $4 = WORKER`. -/
def copyRowForWorker (iid : Nat) (r : LockRow) : LockRow :=
  { r with instance_id := iid, instance_role := InstanceRole.WORKER }

/-- Execute one of the five conditional INSERT statements against the lock
table, returning the committed table and the affected-row count, or raising
`unique_violation`. -/
def execInsert (k : LockSqlKind) (t : LockTable) (ld : LockDesc) :
    Except LockErr (LockTable × Nat) :=
  match k with
  | .coordRD =>
      if conflictsRD t ld.arrayName then .ok (t, 0)
      else tryInsert t [coordRow ld]
  | .coordWrCrt =>
      if conflictsWrCrt t ld.arrayName ld.queryId then .ok (t, 0)
      else tryInsert t [coordRow ld]
  | .coordXclRmRnf =>
      if conflictsXclRmRnf t ld.arrayName ld.queryId then .ok (t, 0)
      else tryInsert t [coordRow ld]
  | .workerWr =>
      tryInsert t
        ((workerWrSelect t ld.arrayName ld.queryId).map
          (copyRowForWorker ld.instanceId))
  | .workerXcl =>
      tryInsert t
        ((workerXclSelect t ld.arrayName ld.queryId ld.instanceId).map
          (copyRowForWorker ld.instanceId))

/-- The re-read `_lockArray` issues on the worker paths: the rows keyed by
`(array_name=$1, query_id=$2, instance_id=$3)` (lines 3330-3331, 3399-3400). -/
def readLockRow (t : LockTable) (name : String) (qid iid : Nat) :
    List LockRow :=
  t.filter fun r =>
    decide (r.array_name = name ∧ r.query_id = qid ∧ r.instance_id = iid)

/-- Stamp a descriptor with the `array_version`, `array_id` and
`array_version_id` columns of a re-read row (`setArrayVersion`, `setArrayId`,
`setArrayVersionId` at lines 3345-3347 and 3414-3416). -/
def stampFrom (ld : LockDesc) (r : LockRow) : LockDesc :=
  { ld with arrayVersion := r.array_version
            arrayId := r.array_id
            arrayVersionId := r.array_version_id }

/-- Outcome of a completed call to `_lockArray`: the committed lock table, the
returned boolean, and the (possibly stamped, possibly `setLocked`) descriptor. -/
structure LockResult where
  table : LockTable
  granted : Bool
  lock : LockDesc
deriving DecidableEq

/-- The worker-side post-processing of `_lockArray` after the insert: on the
WR path an insert that affected one row is followed by a re-read that stamps
the descriptor (lines 3329-3348); on the XCL path an insert affecting 0 or 1
rows is followed by a re-read whose row count replaces `affectedRows`
(lines 3395-3422, with `ASSERT_EXCEPTION` on a non-unique entry). -/
def workerReadBack (k : LockSqlKind) (t1 : LockTable) (ld : LockDesc)
    (aff0 : Nat) : Except LockErr (Nat × LockDesc) :=
  match k with
  | .workerWr =>
      if aff0 = 1 then
        match (readLockRow t1 ld.arrayName ld.queryId ld.instanceId).head? with
        | some r => .ok (aff0, stampFrom ld r)
        | none => .ok (aff0, ld)
      else .ok (aff0, ld)
  | .workerXcl =>
      if aff0 = 1 ∨ aff0 = 0 then
        match readLockRow t1 ld.arrayName ld.queryId ld.instanceId with
        | [r] => .ok (1, stampFrom ld r)
        | [] => .ok (0, ld)
        | _ => .error .assertFailed
      else .error .assertFailed
  | _ => .ok (aff0, ld)

/-- The common tail of `_lockArray` (lines 3497-3515): one affected row means
commit, `setLocked(true)` and return true; otherwise a worker returns false
immediately; a coordinator commits and consults the caller's error checker —
`abandon = true` models a present checker returning false (return false,
line 3512-3514) — else `LockBusyException` is raised. -/
def lockArrayTail (t1 : LockTable) (ld ld1 : LockDesc) (abandon : Bool)
    (aff : Nat) : Except LockErr LockResult :=
  if aff = 1 then .ok ⟨t1, true, { ld1 with isLocked := true }⟩
  else if ld.instanceRole = InstanceRole.WORKER then .ok ⟨t1, false, ld1⟩
  else if abandon then .ok ⟨t1, false, ld1⟩
  else .error .lockBusy

/-- The body of `SystemCatalog::_lockArray` up to (but not including) the
`pqxx::unique_violation` handler: choose the INSERT via `getLockInsertSql`,
execute it, run the worker-side re-reads, and fall through to the common
tail. -/
def lockArrayTry (t : LockTable) (ld : LockDesc) (abandon : Bool) :
    Except LockErr LockResult :=
  match getLockInsertSql ld.lockMode ld.instanceRole with
  | .error e => .error e
  | .ok k =>
      match execInsert k t ld with
      | .error e => .error e
      | .ok (t1, aff0) =>
          match workerReadBack k t1 ld aff0 with
          | .error e => .error e
          | .ok (aff, ld1) => lockArrayTail t1 ld ld1 abandon aff

/-- `SystemCatalog::_lockArray` including its `pqxx::unique_violation` handler
(lines 3517-3535): a uniqueness violation with no local `isLocked` state is a
fatal unknown error; with `isLocked` set it is fatal on a worker
(`ASSERT_EXCEPTION(role == COORD)`) and a benign re-acquisition (return true,
transaction aborted so the table is unchanged) on a coordinator. -/
def lockArray (t : LockTable) (ld : LockDesc) (abandon : Bool) :
    Except LockErr LockResult :=
  match lockArrayTry t ld abandon with
  | .error .uniqueViolation =>
      if ¬ld.isLocked then .error .fatalError
      else if ld.instanceRole ≠ InstanceRole.COORD then .error .assertFailed
      else .ok ⟨t, true, ld⟩
  | r => r

/-- `SystemCatalog::_unlockArray`: unconditional delete keyed by
`(array_name, query_id, instance_id)`; returns whether exactly one row went. -/
def unlockArrayExec (t : LockTable) (name : String) (qid iid : Nat) :
    LockTable × Bool :=
  let remaining := t.filter fun r =>
    !decide (r.array_name = name ∧ r.query_id = qid ∧ r.instance_id = iid)
  (remaining, t.length - remaining.length = 1)

/-- The effect of the `_updateArrayLock` UPDATE on one row: rows keyed by
`(array_name, query_id, instance_id)` get the new `array_id`,
`array_version_id`, `array_version` and `lock_mode`; other rows are
untouched. -/
def updRow (name : String) (qid iid aid avid av : Nat) (m : LockMode)
    (r : LockRow) : LockRow :=
  if r.array_name = name ∧ r.query_id = qid ∧ r.instance_id = iid then
    { r with array_id := aid, array_version_id := avid,
             array_version := av, lock_mode := m }
  else r

/-- `SystemCatalog::_updateArrayLock`: in-place update of `array_id`,
`array_version_id`, `array_version` and `lock_mode` for the row keyed by
`(array_name, query_id, instance_id)`; returns whether one row was affected. -/
def updateArrayLockExec (t : LockTable) (name : String) (qid iid : Nat)
    (aid avid av : Nat) (m : LockMode) : LockTable × Bool :=
  (t.map (updRow name qid iid aid avid av m),
   t.countP (fun r =>
     decide (r.array_name = name ∧ r.query_id = qid ∧ r.instance_id = iid))
     = 1)

/-- Modelled from the spec: the `INVALID_QUERY_ID` sentinel (declared in the
query layer, not in the sources) — the all-ones 64-bit query id; only its
distinctness from 0 and from real query ids matters here. -/
def INVALID_QUERY_ID : Nat := 18446744073709551615

/-- The delete filter of `SystemCatalog::_deleteArrayLocks`: the instance
filter is unconditional; the query filter applies only when
`queryId != INVALID_QUERY_ID && queryId != 0`; the role filter only when
`role != LockDesc::INVALID_ROLE` (lines 3770-3789). -/
def deleteLockMatches (iid qid : Nat) (role : InstanceRole) (r : LockRow) :
    Prop :=
  r.instance_id = iid ∧
  ((qid ≠ INVALID_QUERY_ID ∧ qid ≠ 0) → r.query_id = qid) ∧
  (role ≠ InstanceRole.INVALID_ROLE → r.instance_role = role)

instance (iid qid : Nat) (role : InstanceRole) (r : LockRow) :
    Decidable (deleteLockMatches iid qid role r) := by
  unfold deleteLockMatches; infer_instance

/-- `SystemCatalog::_deleteArrayLocks`: delete every row of the instance that
passes the enabled filters; return the number of rows deleted. -/
def deleteArrayLocksExec (t : LockTable) (iid qid : Nat)
    (role : InstanceRole) : LockTable × Nat :=
  (t.filter fun r => !decide (deleteLockMatches iid qid role r),
   t.countP fun r => decide (deleteLockMatches iid qid role r))

/-- `SystemCatalog::deleteCoordArrayLocks`: all coordinator locks of an
instance, across all queries (line 3742). -/
def deleteCoordArrayLocks (t : LockTable) (iid : Nat) : LockTable × Nat :=
  deleteArrayLocksExec t iid INVALID_QUERY_ID InstanceRole.COORD

/-! ### Transition system over the lock table

The cluster-visible state is the `array_version_lock` relation; a step is one
committed catalog operation.  A `lockArray` call that raises leaves the table
unchanged (the transaction aborts), so only `.ok` completions appear. -/

/-- One committed lock-manager operation. -/
inductive LockStep : LockTable → LockTable → Prop
  | lock (t t' : LockTable) (ld : LockDesc) (abandon granted : Bool)
      (ld' : LockDesc) :
      lockArray t ld abandon = .ok ⟨t', granted, ld'⟩ → LockStep t t'
  | unlock (t t' : LockTable) (name : String) (qid iid : Nat) (rc : Bool) :
      unlockArrayExec t name qid iid = (t', rc) → LockStep t t'
  | update (t t' : LockTable) (name : String) (qid iid aid avid av : Nat)
      (m : LockMode) (rc : Bool) :
      updateArrayLockExec t name qid iid aid avid av m = (t', rc) →
      LockStep t t'
  | deleteL (t t' : LockTable) (iid qid : Nat) (role : InstanceRole) (n : Nat) :
      deleteArrayLocksExec t iid qid role = (t', n) → LockStep t t'

/-- Lock-table states reachable from the empty table by committed operations. -/
inductive Reachable : LockTable → Prop
  | init : Reachable []
  | step {t t'} : Reachable t → LockStep t t' → Reachable t'

/-- As `LockStep`, but an `updateArrayLock` step may not raise a row whose
mode is at or below `RD` to a mode above `RD` (no write-mode escalation of a
shared lock). -/
inductive LockStepNoEsc : LockTable → LockTable → Prop
  | lock (t t' : LockTable) (ld : LockDesc) (abandon granted : Bool)
      (ld' : LockDesc) :
      lockArray t ld abandon = .ok ⟨t', granted, ld'⟩ → LockStepNoEsc t t'
  | unlock (t t' : LockTable) (name : String) (qid iid : Nat) (rc : Bool) :
      unlockArrayExec t name qid iid = (t', rc) → LockStepNoEsc t t'
  | update (t t' : LockTable) (name : String) (qid iid aid avid av : Nat)
      (m : LockMode) (rc : Bool) :
      (∀ r ∈ t, r.array_name = name → r.query_id = qid → r.instance_id = iid →
        LockMode.num LockMode.RD < LockMode.num m →
        LockMode.num LockMode.RD < LockMode.num r.lock_mode) →
      updateArrayLockExec t name qid iid aid avid av m = (t', rc) →
      LockStepNoEsc t t'
  | deleteL (t t' : LockTable) (iid qid : Nat) (role : InstanceRole) (n : Nat) :
      deleteArrayLocksExec t iid qid role = (t', n) → LockStepNoEsc t t'

/-- Reachability under the escalation-free step relation. -/
inductive ReachableNoEsc : LockTable → Prop
  | init : ReachableNoEsc []
  | step {t t'} : ReachableNoEsc t → LockStepNoEsc t t' → ReachableNoEsc t'

/-- Cross-query write exclusion: any two rows for the same array name whose
lock mode is above `RD` belong to the same query. -/
def LockInv (t : LockTable) : Prop :=
  ∀ r1 ∈ t, ∀ r2 ∈ t, r1.array_name = r2.array_name →
    LockMode.num LockMode.RD < LockMode.num r1.lock_mode →
    LockMode.num LockMode.RD < LockMode.num r2.lock_mode →
    r1.query_id = r2.query_id

instance (t : LockTable) : Decidable (LockInv t) := by
  unfold LockInv; infer_instance

/-! ### Retry wrapping and transaction isolation

The shape of each public operation: which retry policies wrap its unit of
work (`Query::runRestartableWork<_, broken_connection>` outside,
`Query::runRestartableWork<_, TxnIsolationConflict>` inside when present) and
which pqxx transaction type its body opens (`work` is pqxx's default
read-committed transaction; the serializable operations open
`pqxx::transaction<pqxx::serializable>`). -/

/-- The pqxx transaction isolation level an operation's body opens. -/
inductive TxnIsolation
  | readCommitted
  | serializable
deriving DecidableEq

/-- A retry policy of the bounded-retry framework. -/
inductive RetryKind
  | onBrokenConnection
  | onTxnIsolationConflict
deriving DecidableEq

/-- `SystemCatalog::lockArray` (lines 3226-3231) wraps `_lockArray` in
`runRestartableWork<bool, broken_connection>` only. -/
def lockArrayRetryWrappers : List RetryKind := [RetryKind.onBrokenConnection]

/-- `_lockArray` opens `work tr(*_connection)` (line 3245): pqxx's default
read-committed transaction, preceded by `LOCK TABLE array_version_lock`. -/
def lockArrayIsolation : TxnIsolation := TxnIsolation.readCommitted

/-- `_lockArray` first executes `LOCK TABLE array_version_lock` (line 3242). -/
def lockArrayTakesTableLockFirst : Bool := true

/-- `SystemCatalog::getCurrentVersion` (lines 2086-2093) composes the outer
broken-connection policy around the inner `TxnIsolationConflict` policy. -/
def getCurrentVersionRetryWrappers : List RetryKind :=
  [RetryKind.onBrokenConnection, RetryKind.onTxnIsolationConflict]

/-- `_getCurrentVersion` opens `pqxx::transaction<pqxx::serializable>`
(line 2134). -/
def getCurrentVersionIsolation : TxnIsolation := TxnIsolation.serializable

/-- `SystemCatalog::addArrayVersion` (lines 340-352) composes the outer
broken-connection policy around the inner `TxnIsolationConflict` policy. -/
def addArrayVersionRetryWrappers : List RetryKind :=
  [RetryKind.onBrokenConnection, RetryKind.onTxnIsolationConflict]

/-- `_addArrayVersion` opens `pqxx::transaction<pqxx::serializable>`
(line 369). -/
def addArrayVersionIsolation : TxnIsolation := TxnIsolation.serializable

/-! ### Version catalog -/

/-- A row of the `array_version` table:
`(array_id, version_array_id, version_id, time_stamp)`. -/
structure VersionRow where
  array_id : Nat
  version_array_id : Nat
  version_id : Nat
  time_stamp : Nat
deriving DecidableEq

/-- The `array_version` relation. -/
abbrev VersionTable := List VersionRow

/-- Greatest `version_id` in a list of rows, 0 when there is none: the
`COALESCE(max(version_id),0)` aggregate. -/
def maxOfVids (rows : List VersionRow) : Nat :=
  rows.foldr (fun r m => max r.version_id m) 0

/-- `select COALESCE(max(version_id),0) from array_version where array_id=$1`
(the read in `_createNewVersion`, line 1960). -/
def maxVersionId (t : VersionTable) (aid : Nat) : Nat :=
  maxOfVids (t.filter fun r => decide (r.array_id = aid))

/-- `SystemCatalog::_createNewVersion`: read the current maximum version id of
the base array, add one, insert the
`(array_id, version_array_id, version_id, time_stamp)` row; returns the
assigned version id and the new table. -/
def createNewVersion (aid vaid ts : Nat) (t : VersionTable) :
    Nat × VersionTable :=
  let vid := maxVersionId t aid + 1
  (vid, t ++ [⟨aid, vaid, vid, ts⟩])

/-- Iterated `_createNewVersion` for one base array: one call per new
version-array id, threading the table; returns the assigned version ids. -/
def createVersions (aid : Nat) (vaids : List Nat) (ts : Nat)
    (t : VersionTable) : List Nat × VersionTable :=
  match vaids with
  | [] => ([], t)
  | v :: vs =>
      let p := createNewVersion aid v ts t
      let q := createVersions aid vs ts p.2
      (p.1 :: q.1, q.2)

/-- The fields of an `array` row that the version-creation path touches:
its catalog id, its unversioned (base) array id and its name. -/
structure ArrayRow where
  id : Nat
  uaid : Nat
  name : String
deriving DecidableEq

/-- The slice of the catalog the `addArrayVersion` transaction writes. -/
structure Catalog where
  arrays : List ArrayRow
  versions : VersionTable
deriving DecidableEq

/-- `SystemCatalog::_addArrayVersion`: inside one serializable transaction,
insert the (optional) unversioned descriptor, insert the versioned descriptor,
and run `_createNewVersion(versionedDesc.getUAId(), versionedDesc.getId())`.
The single state transformation models the transaction: both the descriptor
row and the version row are committed together, or (on abort) neither. -/
def addArrayVersion (c : Catalog) (unversioned : Option ArrayRow)
    (versioned : ArrayRow) (ts : Nat) : Catalog × Nat :=
  let base := match unversioned with
              | some u => c.arrays ++ [u]
              | none => c.arrays
  let p := createNewVersion versioned.uaid versioned.id ts c.versions
  ({ arrays := base ++ [versioned], versions := p.2 }, p.1)

/-- `SystemCatalog::_getLastVersion`:
`select COALESCE(max(version_id),0) from array_version where array_id=$1 and
version_array_id<=$2` (line 2059). -/
def getLastVersion (t : VersionTable) (aid horizon : Nat) : Nat :=
  maxOfVids (t.filter fun r =>
    decide (r.array_id = aid ∧ r.version_array_id ≤ horizon))

/-! ### Boundary maintenance -/

/-- The mutable per-dimension boundary columns of an `array_dimension` row. -/
structure DimBound where
  currStart : Int
  currEnd : Int
deriving DecidableEq

/-- One loop iteration of `_updateArrayBoundaries` for dimension `i`:
`update array_dimension set currStart=$1 where ... and currStart>$1` and
`update array_dimension set currEnd=$1 where ... and currEnd<$1`
(lines 2438-2451). -/
def updateOneDim (d : DimBound) (lo hi : Int) : DimBound :=
  { currStart := if lo < d.currStart then lo else d.currStart
    currEnd := if d.currEnd < hi then hi else d.currEnd }

/-- `SystemCatalog::_updateArrayBoundaries`: apply the conditional updates
dimension by dimension; dimensions beyond the supplied bounds (and bound
entries beyond the dimension rows) touch nothing. -/
def updateArrayBoundaries : List DimBound → List Int → List Int →
    List DimBound
  | d :: ds, lo :: los, hi :: his =>
      updateOneDim d lo hi :: updateArrayBoundaries ds los his
  | ds, _, _ => ds

/-! ## Claim theorems -/

/-- C2 counterexample: `lockArray` does not execute its conditional insert
under serializable isolation — `_lockArray` opens pqxx's default
read-committed `work` transaction — and it is wrapped only in the outer
connection-loss retry policy, not additionally in the inner
serialization-conflict policy. -/
theorem C2_counterexample :
    ¬(lockArrayIsolation = TxnIsolation.serializable ∧
      lockArrayRetryWrappers =
        [RetryKind.onBrokenConnection, RetryKind.onTxnIsolationConflict]) := by
  decide

/-- C2 (amended): `lockArray` runs its conditional insert in a default
read-committed transaction that first takes `LOCK TABLE array_version_lock`,
wrapped only in the connection-loss retry policy; the operations that do run
at serializable isolation (`getCurrentVersion`, `addArrayVersion`) are the
ones wrapped in the inner serialization-conflict retry policy in addition to
the outer connection-loss policy. -/
theorem C2_lockArray_isolation_and_retries :
    lockArrayIsolation = TxnIsolation.readCommitted ∧
    lockArrayTakesTableLockFirst = true ∧
    lockArrayRetryWrappers = [RetryKind.onBrokenConnection] ∧
    getCurrentVersionIsolation = TxnIsolation.serializable ∧
    getCurrentVersionRetryWrappers =
      [RetryKind.onBrokenConnection, RetryKind.onTxnIsolationConflict] ∧
    addArrayVersionIsolation = TxnIsolation.serializable ∧
    addArrayVersionRetryWrappers =
      [RetryKind.onBrokenConnection, RetryKind.onTxnIsolationConflict] := by
  decide

/-- C3: when the conditional insert of `lockArray` hits a store uniqueness
violation, (1) a coordinator whose descriptor already records itself as
locked gets `true` back (benign re-acquisition, table untouched); (2) without
the local locked flag the violation is a fatal unknown error; (3) a worker
whose descriptor records itself as locked still fails
(`ASSERT_EXCEPTION(role == COORD)`). -/
theorem C3_unique_violation_idempotence (t : LockTable) (ld : LockDesc)
    (abandon : Bool)
    (h : lockArrayTry t ld abandon = .error .uniqueViolation) :
    (ld.isLocked = true → ld.instanceRole = InstanceRole.COORD →
       lockArray t ld abandon = .ok ⟨t, true, ld⟩) ∧
    (ld.isLocked = false → lockArray t ld abandon = .error .fatalError) ∧
    (ld.isLocked = true → ld.instanceRole = InstanceRole.WORKER →
       lockArray t ld abandon = .error .assertFailed) := by
  unfold lockArray
  rw [h]
  refine ⟨?_, ?_, ?_⟩ <;> intros h1 <;> simp_all

/-- Witness for C3: a coordinator re-acquiring the WR lock it already holds
(its row is present, so the insert reports a uniqueness violation) receives
success and the table is unchanged. -/
theorem C3_witness :
    lockArray [⟨"A", 10, 1, 1, 0, 0, InstanceRole.COORD, LockMode.WR⟩]
        ⟨"A", 10, 1, 1, 0, 0, InstanceRole.COORD, LockMode.WR, true⟩ false =
      .ok ⟨[⟨"A", 10, 1, 1, 0, 0, InstanceRole.COORD, LockMode.WR⟩], true,
           ⟨"A", 10, 1, 1, 0, 0, InstanceRole.COORD, LockMode.WR, true⟩⟩ :=
  (C3_unique_violation_idempotence
      [⟨"A", 10, 1, 1, 0, 0, InstanceRole.COORD, LockMode.WR⟩]
      ⟨"A", 10, 1, 1, 0, 0, InstanceRole.COORD, LockMode.WR, true⟩ false
      (by decide)).1 rfl rfl

/-- C4: a worker's RNF request is rejected by `getLockInsertSql` as an invalid
(mode, role) combination, so `_lockArray` raises before ever reaching its
WORKER-RNF execution branch (lines 3474-3492, which is therefore dead code);
the worker cannot copy the coordinator's RNF row. -/
theorem C4_worker_rnf_rejected :
    getLockInsertSql LockMode.RNF InstanceRole.WORKER =
      .error .invalidRequest ∧
    lockArray [⟨"A", 3, 1, 1, 0, 0, InstanceRole.COORD, LockMode.RNF⟩]
        ⟨"A", 3, 1, 2, 0, 0, InstanceRole.WORKER, LockMode.RNF, false⟩ false =
      .error .invalidRequest := by
  decide

/-- C10: `deleteArrayLocks` removes exactly the given instance's rows passing
the enabled filters and returns their number; the query filter is enabled only
when the query id is neither `INVALID_QUERY_ID` nor 0, the role filter only
when the role is not `INVALID_ROLE`, so query id 0 (or `INVALID_QUERY_ID`)
spans all queries and `INVALID_ROLE` spans both roles. -/
theorem C10_delete_locks_filters (t : LockTable) (iid qid : Nat)
    (role : InstanceRole) :
    ((deleteArrayLocksExec t iid qid role).2 =
       t.countP fun r => decide (deleteLockMatches iid qid role r)) ∧
    (∀ r : LockRow, r ∈ (deleteArrayLocksExec t iid qid role).1 ↔
       r ∈ t ∧ ¬ deleteLockMatches iid qid role r) ∧
    (∀ r : LockRow, deleteLockMatches iid qid role r ↔
       r.instance_id = iid ∧
       ((qid ≠ INVALID_QUERY_ID ∧ qid ≠ 0) → r.query_id = qid) ∧
       (role ≠ InstanceRole.INVALID_ROLE → r.instance_role = role)) ∧
    ((qid = 0 ∨ qid = INVALID_QUERY_ID) → ∀ r : LockRow,
       deleteLockMatches iid qid role r ↔
         r.instance_id = iid ∧
         (role ≠ InstanceRole.INVALID_ROLE → r.instance_role = role)) ∧
    (role = InstanceRole.INVALID_ROLE → ∀ r : LockRow,
       deleteLockMatches iid qid role r ↔
         r.instance_id = iid ∧
         ((qid ≠ INVALID_QUERY_ID ∧ qid ≠ 0) → r.query_id = qid)) ∧
    (deleteCoordArrayLocks t iid).1 =
      t.filter fun r =>
        !decide (r.instance_id = iid ∧
                 r.instance_role = InstanceRole.COORD) := by
  refine ⟨rfl, ?_, fun _ => Iff.rfl, ?_, ?_, ?_⟩
  · intro r
    simp [deleteArrayLocksExec, List.mem_filter]
  · rintro (rfl | rfl) r <;>
      simp [deleteLockMatches, INVALID_QUERY_ID]
  · rintro rfl r
    simp [deleteLockMatches]
  · unfold deleteCoordArrayLocks deleteArrayLocksExec
    dsimp only
    apply List.filter_congr
    intro r _
    have h : deleteLockMatches iid INVALID_QUERY_ID InstanceRole.COORD r ↔
        r.instance_id = iid ∧ r.instance_role = InstanceRole.COORD := by
      simp [deleteLockMatches]
    simp [h]

/-- C9: each dimension's low bound is rewritten only when the new low is
strictly smaller (else untouched), the high bound only when the new high is
strictly larger; bounds only move outward, and the whole update is
idempotent. -/
theorem C9_boundaries_monotone_idempotent (dims : List DimBound)
    (low high : List Int) :
    (∀ (d : DimBound) (lo hi : Int),
       ((updateOneDim d lo hi).currStart = lo ∧ lo < d.currStart ∨
        (updateOneDim d lo hi).currStart = d.currStart ∧ ¬ lo < d.currStart) ∧
       ((updateOneDim d lo hi).currEnd = hi ∧ d.currEnd < hi ∨
        (updateOneDim d lo hi).currEnd = d.currEnd ∧ ¬ d.currEnd < hi)) ∧
    List.Forall₂ (fun d' d => d'.currStart ≤ d.currStart ∧
        d.currEnd ≤ d'.currEnd)
      (updateArrayBoundaries dims low high) dims ∧
    updateArrayBoundaries (updateArrayBoundaries dims low high) low high =
      updateArrayBoundaries dims low high := by
  refine ⟨?_, ?_, ?_⟩
  · intro d lo hi
    constructor
    · by_cases hlo : lo < d.currStart
      · exact Or.inl ⟨by simp [updateOneDim, hlo], hlo⟩
      · exact Or.inr ⟨by simp [updateOneDim, hlo], hlo⟩
    · by_cases hhi : d.currEnd < hi
      · exact Or.inl ⟨by simp [updateOneDim, hhi], hhi⟩
      · exact Or.inr ⟨by simp [updateOneDim, hhi], hhi⟩
  · induction dims generalizing low high with
    | nil => cases low <;> cases high <;> exact List.Forall₂.nil
    | cons d ds ih =>
      cases low with
      | nil => simp [updateArrayBoundaries]

      | cons lo los =>
        cases high with
        | nil => simp [updateArrayBoundaries]
        | cons hi his =>
          refine List.Forall₂.cons ⟨?_, ?_⟩ (ih los his)
          · by_cases hlo : lo < d.currStart <;> simp [updateOneDim, hlo]
            omega
          · by_cases hhi : d.currEnd < hi <;> simp [updateOneDim, hhi]
            omega
  · induction dims generalizing low high with
    | nil => cases low <;> cases high <;> rfl
    | cons d ds ih =>
      cases low with
      | nil => rfl
      | cons lo los =>
        cases high with
        | nil => rfl
        | cons hi his =>
          show updateArrayBoundaries
              (updateOneDim d lo hi :: updateArrayBoundaries ds los his)
              (lo :: los) (hi :: his) = _
          unfold updateArrayBoundaries
          rw [ih los his]
          congr 1
          unfold updateOneDim
          by_cases hlo : lo < d.currStart <;>
            by_cases hhi : d.currEnd < hi <;>
              simp [hlo, hhi]

/-! ### Version-catalog lemmas -/

theorem maxOfVids_le_of_mem {rows : List VersionRow} {r : VersionRow}
    (h : r ∈ rows) : r.version_id ≤ maxOfVids rows := by
  induction rows with
  | nil => cases h
  | cons a rest ih =>
    rcases List.mem_cons.mp h with rfl | h
    · exact le_max_left _ _
    · exact le_trans (ih h) (le_max_right _ _)

theorem maxOfVids_eq_zero_or_mem (rows : List VersionRow) :
    maxOfVids rows = 0 ∨ ∃ r ∈ rows, r.version_id = maxOfVids rows := by
  induction rows with
  | nil => exact Or.inl rfl
  | cons a rest ih =>
    rcases Nat.le_total a.version_id (maxOfVids rest) with hle | hle
    · rcases ih with h0 | ⟨r, hr, hv⟩
      · left
        show max a.version_id (maxOfVids rest) = 0
        omega
      · right
        refine ⟨r, List.mem_cons_of_mem _ hr, ?_⟩
        show r.version_id = max a.version_id (maxOfVids rest)
        omega
    · right
      refine ⟨a, List.mem_cons_self _ _, ?_⟩
      show a.version_id = max a.version_id (maxOfVids rest)
      omega

theorem maxOfVids_append (a b : List VersionRow) :
    maxOfVids (a ++ b) = max (maxOfVids a) (maxOfVids b) := by
  induction a with
  | nil => simp [maxOfVids]
  | cons x rest ih =>
    show max x.version_id (maxOfVids (rest ++ b)) = _
    rw [ih]
    show _ = max (max x.version_id (maxOfVids rest)) (maxOfVids b)
    omega

theorem maxVersionId_createNewVersion (aid vaid ts : Nat) (t : VersionTable) :
    maxVersionId (createNewVersion aid vaid ts t).2 aid =
      maxVersionId t aid + 1 := by
  show maxVersionId (t ++ [⟨aid, vaid, maxVersionId t aid + 1, ts⟩]) aid = _
  unfold maxVersionId
  rw [List.filter_append, maxOfVids_append]
  simp [maxOfVids]

theorem createVersions_range (aid : Nat) (vaids : List Nat) (ts : Nat)
    (t : VersionTable) :
    (createVersions aid vaids ts t).1 =
      List.range' (maxVersionId t aid + 1) vaids.length := by
  induction vaids generalizing t with
  | nil => rfl
  | cons v vs ih =>
    show (createNewVersion aid v ts t).1 ::
        (createVersions aid vs ts (createNewVersion aid v ts t).2).1 = _
    have h1 : (createNewVersion aid v ts t).1 = maxVersionId t aid + 1 := rfl
    rw [ih, maxVersionId_createNewVersion, h1, List.length_cons,
      List.range'_succ]

/-- C7: `createNewVersion` reads the base array's maximum version id (0 when
no versions exist), assigns exactly max+1, and appends the
`(array_id, version_array_id, version_id, time_stamp)` row; iterated calls
produce the gap-free strictly increasing sequence max+1, max+2, … (so 1..n
from a fresh base array); and the `addArrayVersion` transaction commits the
versioned descriptor row and the version row together. -/
theorem C7_version_creation (t : VersionTable) (aid vaid ts : Nat)
    (c : Catalog) (u : Option ArrayRow) (v : ArrayRow) (vaids : List Nat) :
    (createNewVersion aid vaid ts t).1 = maxVersionId t aid + 1 ∧
    (createNewVersion aid vaid ts t).2 =
      t ++ [⟨aid, vaid, maxVersionId t aid + 1, ts⟩] ∧
    (maxVersionId t aid = 0 → (createNewVersion aid vaid ts t).1 = 1) ∧
    (createVersions aid vaids ts t).1 =
      List.range' (maxVersionId t aid + 1) vaids.length ∧
    (maxVersionId t aid = 0 →
      (createVersions aid vaids ts t).1 = List.range' 1 vaids.length) ∧
    (addArrayVersion c u v ts).1.arrays =
      (match u with
       | some x => c.arrays ++ [x]
       | none => c.arrays) ++ [v] ∧
    (addArrayVersion c u v ts).1.versions =
      c.versions ++
        [⟨v.uaid, v.id, maxVersionId c.versions v.uaid + 1, ts⟩] ∧
    (addArrayVersion c u v ts).2 = maxVersionId c.versions v.uaid + 1 := by
  refine ⟨rfl, rfl, ?_, createVersions_range aid vaids ts t, ?_, rfl, rfl, rfl⟩
  · intro h0
    show maxVersionId t aid + 1 = 1
    omega
  · intro h0
    rw [createVersions_range aid vaids ts t, h0]

/-- C8: `getLastVersion` returns the greatest `version_id` among the base
array's version rows whose `version_array_id` is at most the catalog horizon,
0 when no such row exists; rows beyond the horizon never influence the
result. -/
theorem C8_last_version_snapshot (t : VersionTable) (aid horizon : Nat) :
    (∀ r ∈ t, r.array_id = aid → r.version_array_id ≤ horizon →
       r.version_id ≤ getLastVersion t aid horizon) ∧
    (getLastVersion t aid horizon = 0 ∨
       ∃ r ∈ t, r.array_id = aid ∧ r.version_array_id ≤ horizon ∧
         r.version_id = getLastVersion t aid horizon) ∧
    ((∀ r ∈ t, ¬(r.array_id = aid ∧ r.version_array_id ≤ horizon)) →
       getLastVersion t aid horizon = 0) ∧
    getLastVersion t aid horizon =
      getLastVersion
        (t.filter fun r => decide (r.version_array_id ≤ horizon)) aid
        horizon := by
  refine ⟨?_, ?_, ?_, ?_⟩
  · intro r hr ha hh
    apply maxOfVids_le_of_mem
    exact List.mem_filter.mpr ⟨hr, by simp [ha, hh]⟩
  · rcases maxOfVids_eq_zero_or_mem
        (t.filter fun r =>
          decide (r.array_id = aid ∧ r.version_array_id ≤ horizon)) with
      h0 | ⟨r, hr, hv⟩
    · exact Or.inl h0
    · rcases List.mem_filter.mp hr with ⟨hrt, hcond⟩
      rcases of_decide_eq_true hcond with ⟨ha, hh⟩
      exact Or.inr ⟨r, hrt, ha, hh, hv⟩
  · intro hnone
    unfold getLastVersion
    have : (t.filter fun r =>
        decide (r.array_id = aid ∧ r.version_array_id ≤ horizon)) = [] := by
      apply List.filter_eq_nil_iff.mpr
      intro r hr
      simpa using hnone r hr
    rw [this]
    rfl
  · unfold getLastVersion
    rw [List.filter_filter]
    congr 1
    apply List.filter_congr
    intro r _
    by_cases ha : r.array_id = aid <;>
      by_cases hh : r.version_array_id ≤ horizon <;> simp [ha, hh]

/-- C5 counterexample: with a coordinator WR row (mode > RD) for array "A"
from query 2 in the table, a coordinator RD insert for query 1 still affects
one row — the predicate `_lockArray` binds compares against CRT, not RD, so
the claimed "succeeds iff no row with mode > RD held by a coordinator" is
false at this input. -/
theorem C5_counterexample :
    execInsert .coordRD
        [⟨"A", 7, 2, 2, 0, 0, InstanceRole.COORD, LockMode.WR⟩]
        ⟨"A", 9, 1, 1, 0, 0, InstanceRole.COORD, LockMode.RD, false⟩ =
      .ok ([⟨"A", 7, 2, 2, 0, 0, InstanceRole.COORD, LockMode.WR⟩,
            ⟨"A", 9, 1, 1, 0, 0, InstanceRole.COORD, LockMode.RD⟩], 1) ∧
    ∃ r ∈ [(⟨"A", 7, 2, 2, 0, 0, InstanceRole.COORD, LockMode.WR⟩ : LockRow)],
      r.array_name = "A" ∧
      LockMode.num LockMode.RD < LockMode.num r.lock_mode ∧
      r.instance_role = InstanceRole.COORD := by
  decide

/-- C5 (amended): provided the coordinator does not already hold a row with
the same natural key, its RD insert affects one row iff no existing row for
the array name has lock mode greater than CRT (not RD) and is held by a
coordinator; and RD is an invalid request for a worker to originate. -/
theorem C5_coord_rd_predicate (t : LockTable) (ld : LockDesc)
    (hkey : ∀ r ∈ t, lockKey r ≠ lockKey (coordRow ld)) :
    getLockInsertSql LockMode.RD InstanceRole.COORD = .ok .coordRD ∧
    (execInsert .coordRD t ld = .ok (t ++ [coordRow ld], 1) ↔
       ¬ ∃ r ∈ t, r.array_name = ld.arrayName ∧
         LockMode.num LockMode.CRT < LockMode.num r.lock_mode ∧
         r.instance_role = InstanceRole.COORD) ∧
    ((∃ r ∈ t, r.array_name = ld.arrayName ∧
        LockMode.num LockMode.CRT < LockMode.num r.lock_mode ∧
        r.instance_role = InstanceRole.COORD) →
      execInsert .coordRD t ld = .ok (t, 0)) ∧
    getLockInsertSql LockMode.RD InstanceRole.WORKER =
      .error .invalidRequest := by
  refine ⟨rfl, ?_, ?_, rfl⟩
  · constructor
    · intro hok hconf
      unfold execInsert at hok
      rw [if_pos hconf] at hok
      have h2 := (Except.ok.injEq _ _).mp hok
      have h01 := congrArg Prod.snd h2
      simp at h01
    · intro hconf
      unfold execInsert
      rw [if_neg hconf]
      unfold tryInsert
      have hcond : (([coordRow ld].map lockKey).Nodup ∧
          ∀ nr ∈ [coordRow ld], ∀ r ∈ t, lockKey r ≠ lockKey nr) := by
        refine ⟨by simp, ?_⟩
        intro nr hnr r hr
        rcases List.mem_singleton.mp hnr with rfl
        exact hkey r hr
      rw [if_pos hcond]
      rfl
  · intro hconf
    unfold execInsert
    rw [if_pos hconf]

/-- Witness for C5: on an empty table a coordinator RD insert for array "A"
affects one row, matching the amended predicate. -/
theorem C5_witness :
    execInsert .coordRD []
        ⟨"A", 9, 1, 1, 0, 0, InstanceRole.COORD, LockMode.RD, false⟩ =
      .ok ([coordRow ⟨"A", 9, 1, 1, 0, 0, InstanceRole.COORD, LockMode.RD,
              false⟩], 1) :=
  (C5_coord_rd_predicate []
      ⟨"A", 9, 1, 1, 0, 0, InstanceRole.COORD, LockMode.RD, false⟩
      (by decide)).2.1.mpr (by decide)

/-! ### Reduction lemmas for `lockArrayTry` -/

theorem lockArrayTry_insert_err {t : LockTable} {ld : LockDesc}
    {abandon : Bool} {k : LockSqlKind} {e : LockErr}
    (hk : getLockInsertSql ld.lockMode ld.instanceRole = .ok k)
    (he : execInsert k t ld = .error e) :
    lockArrayTry t ld abandon = .error e := by
  unfold lockArrayTry
  rw [hk]
  show (match execInsert k t ld with
        | Except.error e => Except.error e
        | Except.ok (ta, aa) =>
            match workerReadBack k ta ld aa with
            | Except.error e => Except.error e
            | Except.ok (ab, ldb) => lockArrayTail ta ld ldb abandon ab) = _
  rw [he]

theorem lockArrayTry_insert_ok {t : LockTable} {ld : LockDesc}
    {abandon : Bool} {k : LockSqlKind} {t1 : LockTable} {aff0 : Nat}
    (hk : getLockInsertSql ld.lockMode ld.instanceRole = .ok k)
    (he : execInsert k t ld = .ok (t1, aff0)) :
    lockArrayTry t ld abandon =
      match workerReadBack k t1 ld aff0 with
      | .error e => .error e
      | .ok (ab, ldb) => lockArrayTail t1 ld ldb abandon ab := by
  unfold lockArrayTry
  rw [hk]
  show (match execInsert k t ld with
        | Except.error e => Except.error e
        | Except.ok (ta, aa) =>
            match workerReadBack k ta ld aa with
            | Except.error e => Except.error e
            | Except.ok (ab, ldb) => lockArrayTail ta ld ldb abandon ab) = _
  rw [he]

theorem lockArrayTry_readback_err {t : LockTable} {ld : LockDesc}
    {abandon : Bool} {k : LockSqlKind} {t1 : LockTable} {aff0 : Nat}
    {e : LockErr}
    (hk : getLockInsertSql ld.lockMode ld.instanceRole = .ok k)
    (he : execInsert k t ld = .ok (t1, aff0))
    (hw : workerReadBack k t1 ld aff0 = .error e) :
    lockArrayTry t ld abandon = .error e := by
  rw [lockArrayTry_insert_ok hk he, hw]

theorem lockArrayTry_readback_ok {t : LockTable} {ld : LockDesc}
    {abandon : Bool} {k : LockSqlKind} {t1 : LockTable} {aff0 aff : Nat}
    {ld1 : LockDesc}
    (hk : getLockInsertSql ld.lockMode ld.instanceRole = .ok k)
    (he : execInsert k t ld = .ok (t1, aff0))
    (hw : workerReadBack k t1 ld aff0 = .ok (aff, ld1)) :
    lockArrayTry t ld abandon = lockArrayTail t1 ld ld1 abandon aff := by
  rw [lockArrayTry_insert_ok hk he, hw]

/-! ### Worker-XCL lemmas -/

theorem workerXclSelect_mem {t : LockTable} {name : String} {qid iid : Nat}
    {src : LockRow} (h : src ∈ workerXclSelect t name qid iid) :
    src ∈ t ∧ src.array_name = name ∧ src.query_id = qid ∧
      src.instance_role = InstanceRole.COORD ∧
      src.lock_mode = LockMode.XCL := by
  unfold workerXclSelect at h
  split at h
  · cases h
  · have h2 := List.mem_filter.mp h
    exact ⟨h2.1, of_decide_eq_true h2.2⟩

theorem length_le_one_of_nodup_const {α β : Type} {l : List α} {f : α → β}
    {c : β} (hnd : (l.map f).Nodup) (hc : ∀ x ∈ l, f x = c) :
    l.length ≤ 1 := by
  match l with
  | [] => simp
  | [x] => simp
  | x :: y :: rest =>
    exfalso
    have hx : f x = c := hc x (by simp)
    have hy : f y = c := hc y (by simp)
    have hne := (List.nodup_cons.mp hnd).1
    exact hne (by rw [hx, ← hy]; exact List.mem_map_of_mem f (by simp))

theorem tryInsert_ok {t : LockTable} {rows : List LockRow} {t' : LockTable}
    {n : Nat} (h : tryInsert t rows = .ok (t', n)) :
    t' = t ++ rows ∧ n = rows.length ∧ (rows.map lockKey).Nodup := by
  unfold tryInsert at h
  split at h
  · rename_i hcond
    have h2 := (Except.ok.injEq _ _).mp h
    exact ⟨(congrArg Prod.fst h2).symm, (congrArg Prod.snd h2).symm, hcond.1⟩
  · cases h

/-- Defining equation of the coordinator RD insert. -/
theorem execInsert_coordRD_eq (t : LockTable) (ld : LockDesc) :
    execInsert .coordRD t ld =
      if conflictsRD t ld.arrayName then .ok (t, 0)
      else tryInsert t [coordRow ld] := rfl

theorem execInsert_coordWrCrt_eq (t : LockTable) (ld : LockDesc) :
    execInsert .coordWrCrt t ld =
      if conflictsWrCrt t ld.arrayName ld.queryId then .ok (t, 0)
      else tryInsert t [coordRow ld] := rfl

theorem execInsert_coordXclRmRnf_eq (t : LockTable) (ld : LockDesc) :
    execInsert .coordXclRmRnf t ld =
      if conflictsXclRmRnf t ld.arrayName ld.queryId then .ok (t, 0)
      else tryInsert t [coordRow ld] := rfl

theorem execInsert_workerWr_eq (t : LockTable) (ld : LockDesc) :
    execInsert .workerWr t ld =
      tryInsert t ((workerWrSelect t ld.arrayName ld.queryId).map
        (copyRowForWorker ld.instanceId)) := rfl

theorem execInsert_workerXcl_eq (t : LockTable) (ld : LockDesc) :
    execInsert .workerXcl t ld =
      tryInsert t
        ((workerXclSelect t ld.arrayName ld.queryId ld.instanceId).map
          (copyRowForWorker ld.instanceId)) := rfl

theorem workerReadBack_xcl_eq (t1 : LockTable) (ld : LockDesc) (aff0 : Nat) :
    workerReadBack .workerXcl t1 ld aff0 =
      if aff0 = 1 ∨ aff0 = 0 then
        match readLockRow t1 ld.arrayName ld.queryId ld.instanceId with
        | [r] => Except.ok (1, stampFrom ld r)
        | [] => Except.ok (0, ld)
        | _ => Except.error LockErr.assertFailed
      else Except.error LockErr.assertFailed := rfl

/-- C6: a worker's XCL acquisition treats an insert affecting 0 or 1 rows as
potentially successful — the insert can only affect 0 or 1 rows — and then
re-reads the row keyed `(arrayName, queryId, instanceId)`: exactly one row
means the descriptor is stamped with that row's arrayId / arrayVersionId /
arrayVersion and the call returns true; no row means it returns false; any row
the insert added is a copy of a coordinator XCL row of the same query, and a
granted result's fields always come from the stored row, never from the
worker's own input descriptor. -/
theorem C6_worker_xcl_tolerance (t : LockTable) (ld : LockDesc)
    (abandon : Bool) (hm : ld.lockMode = LockMode.XCL)
    (hr : ld.instanceRole = InstanceRole.WORKER) :
    (∀ t1 aff, execInsert .workerXcl t ld = .ok (t1, aff) →
       (aff = 0 ∨ aff = 1) ∧
       (∀ r : LockRow,
          readLockRow t1 ld.arrayName ld.queryId ld.instanceId = [r] →
          lockArrayTry t ld abandon =
            .ok ⟨t1, true, { stampFrom ld r with isLocked := true }⟩) ∧
       (readLockRow t1 ld.arrayName ld.queryId ld.instanceId = [] →
          lockArrayTry t ld abandon = .ok ⟨t1, false, ld⟩) ∧
       (∀ r ∈ t1, r ∉ t →
          ∃ src ∈ t, src.array_name = ld.arrayName ∧
            src.query_id = ld.queryId ∧
            src.instance_role = InstanceRole.COORD ∧
            src.lock_mode = LockMode.XCL ∧
            r = copyRowForWorker ld.instanceId src)) ∧
    (∀ res : LockResult, lockArrayTry t ld abandon = .ok res →
       res.granted = true →
       ∃ r ∈ res.table, r.array_name = ld.arrayName ∧
         r.query_id = ld.queryId ∧ r.instance_id = ld.instanceId ∧
         res.lock.arrayId = r.array_id ∧
         res.lock.arrayVersionId = r.array_version_id ∧
         res.lock.arrayVersion = r.array_version) := by
  have hk : getLockInsertSql ld.lockMode ld.instanceRole = .ok .workerXcl := by
    rw [hm, hr]; rfl
  constructor
  · intro t1 aff hexec
    have hexecU := hexec
    rw [execInsert_workerXcl_eq] at hexecU
    obtain ⟨ht1, haff, hnd⟩ := tryInsert_ok hexecU
    have hkeyc : ∀ c ∈ (workerXclSelect t ld.arrayName ld.queryId
        ld.instanceId).map (copyRowForWorker ld.instanceId),
        lockKey c = (ld.arrayName, ld.queryId, ld.instanceId) := by
      intro c hc
      rcases List.mem_map.mp hc with ⟨src, hsrc, rfl⟩
      obtain ⟨_, hn, hq, _, _⟩ := workerXclSelect_mem hsrc
      simp [lockKey, copyRowForWorker, hn, hq]
    have haff01 : aff = 0 ∨ aff = 1 := by
      have hle := length_le_one_of_nodup_const hnd hkeyc
      omega
    refine ⟨haff01, ?_, ?_, ?_⟩
    · intro r hread
      have hw : workerReadBack .workerXcl t1 ld aff =
          .ok (1, stampFrom ld r) := by
        rw [workerReadBack_xcl_eq, if_pos (Or.symm haff01), hread]
      rw [lockArrayTry_readback_ok hk hexec hw]
      rfl
    · intro hread
      have hw : workerReadBack .workerXcl t1 ld aff = .ok (0, ld) := by
        rw [workerReadBack_xcl_eq, if_pos (Or.symm haff01), hread]
      rw [lockArrayTry_readback_ok hk hexec hw]
      simp [lockArrayTail, hr]
    · intro r hrt1 hrt
      rw [ht1] at hrt1
      rcases List.mem_append.mp hrt1 with h | h
      · exact absurd h hrt
      · rcases List.mem_map.mp h with ⟨src, hsrc, rfl⟩
        obtain ⟨hmem, hn, hq, hrole, hmode⟩ := workerXclSelect_mem hsrc
        exact ⟨src, hmem, hn, hq, hrole, hmode, rfl⟩
  · intro res h hgr
    cases hexec : execInsert .workerXcl t ld with
    | error e =>
      rw [lockArrayTry_insert_err hk hexec] at h
      cases h
    | ok p =>
      obtain ⟨t1, aff0⟩ := p
      cases hwr : workerReadBack .workerXcl t1 ld aff0 with
      | error e =>
        rw [lockArrayTry_readback_err hk hexec hwr] at h
        cases h
      | ok q =>
        obtain ⟨aff, ld1⟩ := q
        rw [lockArrayTry_readback_ok hk hexec hwr] at h
        rw [workerReadBack_xcl_eq] at hwr
        split at hwr
        · cases hread : readLockRow t1 ld.arrayName ld.queryId
              ld.instanceId with
          | nil =>
            rw [hread] at hwr
            have h2 := (Except.ok.injEq _ _).mp hwr
            have haf : aff = 0 := (congrArg Prod.fst h2).symm
            have hld1 : ld1 = ld := (congrArg Prod.snd h2).symm
            subst haf hld1
            simp only [lockArrayTail, if_neg (by omega : ¬(0 : Nat) = 1),
              if_pos hr] at h
            have hres := (Except.ok.injEq _ _).mp h
            rw [← hres] at hgr
            simp at hgr
          | cons r rest =>
            cases rest with
            | nil =>
              rw [hread] at hwr
              have h2 := (Except.ok.injEq _ _).mp hwr
              have haf : aff = 1 := (congrArg Prod.fst h2).symm
              have hld1 : ld1 = stampFrom ld r := (congrArg Prod.snd h2).symm
              subst haf hld1
              simp only [lockArrayTail, if_pos rfl] at h
              have hrmem := List.mem_filter.mp
                (hread ▸ List.mem_singleton_self r :
                  r ∈ readLockRow t1 ld.arrayName ld.queryId ld.instanceId)
              obtain ⟨hn, hq, hi⟩ := of_decide_eq_true hrmem.2
              have hres := (Except.ok.injEq _ _).mp h
              subst hres
              refine ⟨r, hrmem.1, hn, hq, hi, ?_, ?_, ?_⟩ <;>
                simp [stampFrom]
            | cons r2 rest2 =>
              rw [hread] at hwr
              cases hwr
        · cases hwr

/-- Witness for C6: a worker XCL acquisition against a table holding the
coordinator's XCL row copies that row (stamped with the worker's instance id),
re-reads it, stamps arrayId 21 / arrayVersionId 33 / arrayVersion 3 from it —
not the worker's own zeros — and returns true. -/
theorem C6_witness :
    lockArrayTry [⟨"A", 21, 1, 1, 33, 3, InstanceRole.COORD, LockMode.XCL⟩]
        ⟨"A", 0, 1, 2, 0, 0, InstanceRole.WORKER, LockMode.XCL, false⟩ false =
      .ok ⟨[⟨"A", 21, 1, 1, 33, 3, InstanceRole.COORD, LockMode.XCL⟩,
            ⟨"A", 21, 1, 2, 33, 3, InstanceRole.WORKER, LockMode.XCL⟩], true,
           ⟨"A", 21, 1, 2, 33, 3, InstanceRole.WORKER, LockMode.XCL, true⟩⟩ :=
  ((C6_worker_xcl_tolerance
      [⟨"A", 21, 1, 1, 33, 3, InstanceRole.COORD, LockMode.XCL⟩]
      ⟨"A", 0, 1, 2, 0, 0, InstanceRole.WORKER, LockMode.XCL, false⟩
      false rfl rfl).1
    [⟨"A", 21, 1, 1, 33, 3, InstanceRole.COORD, LockMode.XCL⟩,
     ⟨"A", 21, 1, 2, 33, 3, InstanceRole.WORKER, LockMode.XCL⟩] 1
    (by decide)).2.1
    ⟨"A", 21, 1, 2, 33, 3, InstanceRole.WORKER, LockMode.XCL⟩ (by decide)

/-! ### Cross-query write-exclusion invariant -/

theorem getLockInsertSql_kind_inv :
    ∀ (m : LockMode) (r : InstanceRole) (k : LockSqlKind),
      getLockInsertSql m r = .ok k →
      ((k = .coordRD → m = .RD ∧ r = .COORD) ∧
       (k = .coordWrCrt → (m = .WR ∨ m = .CRT) ∧ r = .COORD) ∧
       (k = .workerWr → m = .WR ∧ r = .WORKER) ∧
       (k = .coordXclRmRnf →
          (m = .RM ∨ m = .RNF ∨ m = .XCL) ∧ r = .COORD) ∧
       (k = .workerXcl → m = .XCL ∧ r = .WORKER)) := by
  intro m r k
  cases m <;> cases r <;> cases k <;> decide

theorem workerWrSelect_mem {t : LockTable} {name : String} {qid : Nat}
    {src : LockRow} (h : src ∈ workerWrSelect t name qid) :
    src ∈ t ∧ src.array_name = name ∧ src.query_id = qid ∧
      src.instance_role = InstanceRole.COORD ∧
      (src.lock_mode = LockMode.WR ∨ src.lock_mode = LockMode.CRT) := by
  have h2 := List.mem_filter.mp h
  exact ⟨h2.1, of_decide_eq_true h2.2⟩

theorem LockInv_subset {t t' : LockTable} (hsub : ∀ r ∈ t', r ∈ t)
    (hInv : LockInv t) : LockInv t' := by
  intro r1 h1 r2 h2
  exact hInv r1 (hsub r1 h1) r2 (hsub r2 h2)

theorem LockInv_append_single {t : LockTable} {nr : LockRow}
    (hInv : LockInv t)
    (hnew : LockMode.num LockMode.RD < LockMode.num nr.lock_mode →
      ∀ r ∈ t, r.array_name = nr.array_name →
        LockMode.num LockMode.RD < LockMode.num r.lock_mode →
        r.query_id = nr.query_id) :
    LockInv (t ++ [nr]) := by
  intro r1 h1 r2 h2 hname hm1 hm2
  rcases List.mem_append.mp h1 with g1 | g1 <;>
    rcases List.mem_append.mp h2 with g2 | g2
  · exact hInv r1 g1 r2 g2 hname hm1 hm2
  · rcases List.mem_singleton.mp g2 with rfl
    exact hnew hm2 r1 g1 hname hm1
  · rcases List.mem_singleton.mp g1 with rfl
    exact (hnew hm1 r2 g2 hname.symm hm2).symm
  · rcases List.mem_singleton.mp g1 with rfl
    rcases List.mem_singleton.mp g2 with rfl
    rfl

theorem LockInv_append_copies {t : LockTable} {rows : List LockRow}
    (hInv : LockInv t)
    (hsrc : ∀ c ∈ rows, ∃ src ∈ t, c.array_name = src.array_name ∧
      c.query_id = src.query_id ∧ c.lock_mode = src.lock_mode) :
    LockInv (t ++ rows) := by
  intro r1 h1 r2 h2 hname hm1 hm2
  have key : ∀ x ∈ t ++ rows,
      LockMode.num LockMode.RD < LockMode.num x.lock_mode →
      ∃ s ∈ t, x.array_name = s.array_name ∧ x.query_id = s.query_id ∧
        LockMode.num LockMode.RD < LockMode.num s.lock_mode := by
    intro x hx hmx
    rcases List.mem_append.mp hx with hx | hx
    · exact ⟨x, hx, rfl, rfl, hmx⟩
    · rcases hsrc x hx with ⟨s, hs, hn, hq, hmo⟩
      exact ⟨s, hs, hn, hq, hmo ▸ hmx⟩
  rcases key r1 h1 hm1 with ⟨s1, hs1, hn1, hq1, hm1s⟩
  rcases key r2 h2 hm2 with ⟨s2, hs2, hn2, hq2, hm2s⟩
  have hnn : s1.array_name = s2.array_name := by rw [← hn1, ← hn2, hname]
  rw [hq1, hq2]
  exact hInv s1 hs1 s2 hs2 hnn hm1s hm2s

theorem updRow_fields (name : String) (qid iid aid avid av : Nat)
    (m : LockMode) (r : LockRow) :
    (updRow name qid iid aid avid av m r).array_name = r.array_name ∧
    (updRow name qid iid aid avid av m r).query_id = r.query_id ∧
    ((updRow name qid iid aid avid av m r).lock_mode = m ∧
       r.array_name = name ∧ r.query_id = qid ∧ r.instance_id = iid ∨
     updRow name qid iid aid avid av m r = r) := by
  unfold updRow
  split
  · rename_i hcond
    exact ⟨rfl, rfl, Or.inl ⟨rfl, hcond.1, hcond.2.1, hcond.2.2⟩⟩
  · exact ⟨rfl, rfl, Or.inr rfl⟩

theorem LockInv_update {t : LockTable} (name : String)
    (qid iid aid avid av : Nat) (m : LockMode) (hInv : LockInv t)
    (hesc : ∀ r ∈ t, r.array_name = name → r.query_id = qid →
      r.instance_id = iid → LockMode.num LockMode.RD < LockMode.num m →
      LockMode.num LockMode.RD < LockMode.num r.lock_mode) :
    LockInv (updateArrayLockExec t name qid iid aid avid av m).1 := by
  intro r1 h1 r2 h2 hname hm1 hm2
  rcases List.mem_map.mp h1 with ⟨s1, hs1, rfl⟩
  rcases List.mem_map.mp h2 with ⟨s2, hs2, rfl⟩
  obtain ⟨hn1, hq1, hc1⟩ := updRow_fields name qid iid aid avid av m s1
  obtain ⟨hn2, hq2, hc2⟩ := updRow_fields name qid iid aid avid av m s2
  have hms1 : LockMode.num LockMode.RD < LockMode.num s1.lock_mode := by
    rcases hc1 with ⟨hmo, ha, hb, hc⟩ | heq
    · exact hesc s1 hs1 ha hb hc (hmo ▸ hm1)
    · rw [← heq]
      exact hm1
  have hms2 : LockMode.num LockMode.RD < LockMode.num s2.lock_mode := by
    rcases hc2 with ⟨hmo, ha, hb, hc⟩ | heq
    · exact hesc s2 hs2 ha hb hc (hmo ▸ hm2)
    · rw [← heq]
      exact hm2
  rw [hq1, hq2]
  exact hInv s1 hs1 s2 hs2 (by rw [← hn1, ← hn2, hname]) hms1 hms2

theorem execInsert_preserves_inv {k : LockSqlKind} {t : LockTable}
    {ld : LockDesc} {t' : LockTable} {n : Nat}
    (hk : getLockInsertSql ld.lockMode ld.instanceRole = .ok k)
    (hInv : LockInv t) (h : execInsert k t ld = .ok (t', n)) :
    LockInv t' := by
  have hki := getLockInsertSql_kind_inv ld.lockMode ld.instanceRole k hk
  cases k with
  | coordRD =>
    obtain ⟨hm, _⟩ := hki.1 rfl
    rw [execInsert_coordRD_eq] at h
    split at h
    · have h2 := (Except.ok.injEq _ _).mp h
      have ht' : t = t' := congrArg Prod.fst h2
      exact ht' ▸ hInv
    · obtain ⟨ht, _, _⟩ := tryInsert_ok h
      subst ht
      apply LockInv_append_single hInv
      intro hmode
      exfalso
      have : (coordRow ld).lock_mode = LockMode.RD := by
        simp [coordRow, hm]
      rw [this] at hmode
      exact absurd hmode (by decide)
  | coordWrCrt =>
    rw [execInsert_coordWrCrt_eq] at h
    split at h
    · have h2 := (Except.ok.injEq _ _).mp h
      have ht' : t = t' := congrArg Prod.fst h2
      exact ht' ▸ hInv
    · rename_i hconf
      obtain ⟨ht, _, _⟩ := tryInsert_ok h
      subst ht
      apply LockInv_append_single hInv
      intro _ r hr hnr hmr
      by_contra hq
      exact hconf ⟨r, hr, hnr, hq, hmr⟩
  | coordXclRmRnf =>
    rw [execInsert_coordXclRmRnf_eq] at h
    split at h
    · have h2 := (Except.ok.injEq _ _).mp h
      have ht' : t = t' := congrArg Prod.fst h2
      exact ht' ▸ hInv
    · rename_i hconf
      obtain ⟨ht, _, _⟩ := tryInsert_ok h
      subst ht
      apply LockInv_append_single hInv
      intro _ r hr hnr _
      by_contra hq
      exact hconf ⟨r, hr, hnr, hq⟩
  | workerWr =>
    rw [execInsert_workerWr_eq] at h
    obtain ⟨ht, _, _⟩ := tryInsert_ok h
    subst ht
    apply LockInv_append_copies hInv
    intro c hc
    rcases List.mem_map.mp hc with ⟨src, hsrc, rfl⟩
    exact ⟨src, (workerWrSelect_mem hsrc).1, rfl, rfl, rfl⟩
  | workerXcl =>
    rw [execInsert_workerXcl_eq] at h
    obtain ⟨ht, _, _⟩ := tryInsert_ok h
    subst ht
    apply LockInv_append_copies hInv
    intro c hc
    rcases List.mem_map.mp hc with ⟨src, hsrc, rfl⟩
    exact ⟨src, (workerXclSelect_mem hsrc).1, rfl, rfl, rfl⟩

theorem lockArrayTry_table {t : LockTable} {ld : LockDesc} {abandon : Bool}
    {res : LockResult} (h : lockArrayTry t ld abandon = .ok res) :
    ∃ k n, getLockInsertSql ld.lockMode ld.instanceRole = .ok k ∧
      execInsert k t ld = .ok (res.table, n) := by
  cases hk : getLockInsertSql ld.lockMode ld.instanceRole with
  | error e =>
    have herr : lockArrayTry t ld abandon = .error e := by
      unfold lockArrayTry
      rw [hk]
    rw [herr] at h
    cases h
  | ok k =>
    cases he : execInsert k t ld with
    | error e =>
      rw [lockArrayTry_insert_err hk he] at h
      cases h
    | ok p =>
      obtain ⟨t1, aff0⟩ := p
      cases hw : workerReadBack k t1 ld aff0 with
      | error e =>
        rw [lockArrayTry_readback_err hk he hw] at h
        cases h
      | ok q =>
        obtain ⟨aff, ld1⟩ := q
        rw [lockArrayTry_readback_ok hk he hw] at h
        unfold lockArrayTail at h
        split at h
        · have h2 := (Except.ok.injEq _ _).mp h
          rw [← h2]
          exact ⟨k, aff0, rfl, he⟩
        · split at h
          · have h2 := (Except.ok.injEq _ _).mp h
            rw [← h2]
            exact ⟨k, aff0, rfl, he⟩
          · split at h
            · have h2 := (Except.ok.injEq _ _).mp h
              rw [← h2]
              exact ⟨k, aff0, rfl, he⟩
            · cases h

theorem lockArray_table {t : LockTable} {ld : LockDesc} {abandon : Bool}
    {res : LockResult} (h : lockArray t ld abandon = .ok res) :
    res.table = t ∨
    ∃ k n, getLockInsertSql ld.lockMode ld.instanceRole = .ok k ∧
      execInsert k t ld = .ok (res.table, n) := by
  unfold lockArray at h
  cases htry : lockArrayTry t ld abandon with
  | ok r0 =>
    rw [htry] at h
    have h2 := (Except.ok.injEq _ _).mp h
    exact Or.inr (h2 ▸ lockArrayTry_table htry)
  | error e =>
    rw [htry] at h
    cases e with
    | uniqueViolation =>
      left
      by_cases hL : ld.isLocked
      · by_cases hR : ld.instanceRole = InstanceRole.COORD
        · rw [if_neg (by simp [hL]), if_neg (by simp [hR])] at h
          have h2 := (Except.ok.injEq _ _).mp h
          rw [← h2]
        · rw [if_neg (by simp [hL]), if_pos (by simp [hR])] at h
          cases h
      · rw [if_pos (by simp [hL])] at h
        cases h
    | invalidRequest => cases h
    | assertFailed => cases h
    | lockBusy => cases h
    | fatalError => cases h

theorem lockArray_preserves_inv {t : LockTable} {ld : LockDesc}
    {abandon : Bool} {res : LockResult} (hInv : LockInv t)
    (h : lockArray t ld abandon = .ok res) : LockInv res.table := by
  rcases lockArray_table h with htab | ⟨k, n, hk, he⟩
  · rw [htab]
    exact hInv
  · exact execInsert_preserves_inv hk hInv he

theorem reachableNoEsc_inv {t : LockTable} (h : ReachableNoEsc t) :
    LockInv t := by
  induction h with
  | init => intro r1 h1; cases h1
  | step hr hs ih =>
    rename_i t0 t1
    cases hs with
    | lock ld abandon granted ld' he =>
      exact lockArray_preserves_inv ih he
    | unlock name qid iid rc he =>
      have h1 : t1 = (unlockArrayExec t0 name qid iid).1 :=
        (congrArg Prod.fst he).symm
      rw [h1]
      exact LockInv_subset (fun r hr2 => List.mem_of_mem_filter hr2) ih
    | update name qid iid aid avid av m rc hesc he =>
      have h1 : t1 = (updateArrayLockExec t0 name qid iid aid avid av m).1 :=
        (congrArg Prod.fst he).symm
      rw [h1]
      exact LockInv_update name qid iid aid avid av m ih hesc
    | deleteL iid qid role n he =>
      have h1 : t1 = (deleteArrayLocksExec t0 iid qid role).1 :=
        (congrArg Prod.fst he).symm
      rw [h1]
      exact LockInv_subset (fun r hr2 => List.mem_of_mem_filter hr2) ih

/-- C1 counterexample: with `updateArrayLock` steps unrestricted, a state with
two XCL rows for array "A" from distinct queries is reachable — two
coordinators take RD locks (which commute past each other) and each then
upgrades its own row's mode to XCL via `updateArrayLock`, whose UPDATE carries
no mode predicate. -/
theorem C1_counterexample :
    Reachable [⟨"A", 5, 1, 1, 0, 0, InstanceRole.COORD, LockMode.XCL⟩,
               ⟨"A", 6, 2, 2, 0, 0, InstanceRole.COORD, LockMode.XCL⟩] ∧
    ¬ LockInv [⟨"A", 5, 1, 1, 0, 0, InstanceRole.COORD, LockMode.XCL⟩,
               ⟨"A", 6, 2, 2, 0, 0, InstanceRole.COORD, LockMode.XCL⟩] := by
  constructor
  · have s1 : LockStep []
        [⟨"A", 5, 1, 1, 0, 0, InstanceRole.COORD, LockMode.RD⟩] :=
      LockStep.lock _ _
        ⟨"A", 5, 1, 1, 0, 0, InstanceRole.COORD, LockMode.RD, false⟩
        false true
        ⟨"A", 5, 1, 1, 0, 0, InstanceRole.COORD, LockMode.RD, true⟩
        (by decide)
    have s2 : LockStep
        [⟨"A", 5, 1, 1, 0, 0, InstanceRole.COORD, LockMode.RD⟩]
        [⟨"A", 5, 1, 1, 0, 0, InstanceRole.COORD, LockMode.RD⟩,
         ⟨"A", 6, 2, 2, 0, 0, InstanceRole.COORD, LockMode.RD⟩] :=
      LockStep.lock _ _
        ⟨"A", 6, 2, 2, 0, 0, InstanceRole.COORD, LockMode.RD, false⟩
        false true
        ⟨"A", 6, 2, 2, 0, 0, InstanceRole.COORD, LockMode.RD, true⟩
        (by decide)
    have s3 : LockStep
        [⟨"A", 5, 1, 1, 0, 0, InstanceRole.COORD, LockMode.RD⟩,
         ⟨"A", 6, 2, 2, 0, 0, InstanceRole.COORD, LockMode.RD⟩]
        [⟨"A", 5, 1, 1, 0, 0, InstanceRole.COORD, LockMode.XCL⟩,
         ⟨"A", 6, 2, 2, 0, 0, InstanceRole.COORD, LockMode.RD⟩] :=
      LockStep.update _ _ "A" 1 1 5 0 0 LockMode.XCL true (by decide)
    have s4 : LockStep
        [⟨"A", 5, 1, 1, 0, 0, InstanceRole.COORD, LockMode.XCL⟩,
         ⟨"A", 6, 2, 2, 0, 0, InstanceRole.COORD, LockMode.RD⟩]
        [⟨"A", 5, 1, 1, 0, 0, InstanceRole.COORD, LockMode.XCL⟩,
         ⟨"A", 6, 2, 2, 0, 0, InstanceRole.COORD, LockMode.XCL⟩] :=
      LockStep.update _ _ "A" 2 2 6 0 0 LockMode.XCL true (by decide)
    exact Reachable.step
      (Reachable.step (Reachable.step (Reachable.step Reachable.init s1) s2)
        s3) s4
  · decide

/-- C1 (amended): in every state reachable by lockArray / unlockArray /
deleteArrayLocks steps and by updateArrayLock steps that never raise a row
from mode RD (or below) to a write mode, any two rows for the same array name
with lock mode above RD belong to the same query (so at most one query holds
WR/CRT/XCL/RM/RNF rows on an array); and a coordinator's conditional insert
for WR/CRT affects one row only if no row for that array name from a different
query has mode above RD, and for XCL/RM/RNF only if no row for that array name
from a different query exists at all. -/
theorem C1_write_lock_exclusion :
    (∀ t, ReachableNoEsc t → LockInv t) ∧
    (∀ (t : LockTable) (ld : LockDesc) (t' : LockTable),
       execInsert .coordWrCrt t ld = .ok (t', 1) →
       ¬ ∃ r ∈ t, r.array_name = ld.arrayName ∧ r.query_id ≠ ld.queryId ∧
           LockMode.num LockMode.RD < LockMode.num r.lock_mode) ∧
    (∀ (t : LockTable) (ld : LockDesc) (t' : LockTable),
       execInsert .coordXclRmRnf t ld = .ok (t', 1) →
       ¬ ∃ r ∈ t, r.array_name = ld.arrayName ∧ r.query_id ≠ ld.queryId) := by
  refine ⟨fun t h => reachableNoEsc_inv h, ?_, ?_⟩
  · intro t ld t' h
    rw [execInsert_coordWrCrt_eq] at h
    split at h
    · have h2 := (Except.ok.injEq _ _).mp h
      have h01 := congrArg Prod.snd h2
      simp at h01
    · rename_i hconf
      exact hconf
  · intro t ld t' h
    rw [execInsert_coordXclRmRnf_eq] at h
    split at h
    · have h2 := (Except.ok.injEq _ _).mp h
      have h01 := congrArg Prod.snd h2
      simp at h01
    · rename_i hconf
      exact hconf

end SciDBCatalog
